import Mathlib

/-!
Verification of the module download cache coordinator vendored in
`tensorflow_hub/resolver.py` (function `atomic_download` together with its
helpers `_lock_filename`, `_lock_file_contents`, `_task_uid_from_lock_file`,
`_temp_download_dir`, `_module_descriptor_file`, `_wait_for_lock_to_disappear`)
and of the resolver dispatch classes (`Resolver.get_module_path`,
`UseFirstSupportingResolver`).

The development has three layers.

* A string layer: the path-derivation and lock-content functions are embedded
  over `List Char` (a Python `str` is a sequence of characters), with
  `splitOnDot` mirroring Python's `str.split(".")`.
* A wait-loop layer: one iteration of the body of
  `_wait_for_lock_to_disappear` is embedded as a function from the loop state
  (tracked size, tracked content, time of the last staleness check) and the
  current observations (clock, lock existence, lock content, temp-dir size) to
  the action taken (finish, steal the lock, keep waiting) and the next state.
  Real time is represented by natural-number clock readings.
* A protocol layer: `atomic_download` is embedded as a small-step transition
  system over a shared filesystem state.  Each task (one process running
  `atomic_download` for the same `module_dir`) has a program counter that
  follows the control flow of the Python function; the shared state records
  the lock file (as `Option Nat`: the identity written in its content, task
  identities being distinct because each attempt draws a fresh uuid), whether
  the module directory exists, whether the descriptor file exists, and each
  task's private temporary directory.  The staleness timeout of the wait
  phase is abstracted into a nondeterministic `steal` event.
-/

namespace DownloadCache

/-! ## String layer: path derivation (resolver.py lines 128-184) -/

/-- Embedding of `_lock_filename(module_dir)`: `os.path.abspath(module_dir) + ".lock"`.
Paths are taken as already absolute, so `abspath` is the identity. -/
def lock_filename (module_dir : String) : String :=
  module_dir ++ ".lock"

/-- Embedding of `_temp_download_dir(module_dir, task_uid)`:
`"{}.{}.tmp".format(os.path.abspath(module_dir), task_uid)`. -/
def temp_download_dir (module_dir task_uid : String) : String :=
  module_dir ++ "." ++ task_uid ++ ".tmp"

/-- Embedding of `_module_descriptor_file(module_dir)`: `"{}.descriptor.txt".format(module_dir)`. -/
def module_descriptor_file (module_dir : String) : String :=
  module_dir ++ ".descriptor.txt"

/-! ## String layer: lock file contents (resolver.py lines 151-179)

`_lock_file_contents(task_uid)` returns `"%s.%d.%s" % (hostname, pid, task_uid)`
and `_task_uid_from_lock_file` recovers the uid as `lock.split(".")[-1]`.
Strings are embedded as `List Char` here because the proofs are about the
character-level behaviour of `split`. -/

/-- Embedding of `_lock_file_contents(task_uid)`: `"%s.%d.%s" % (socket.gethostname(),
os.getpid(), task_uid)`; `%d` of the (nonnegative) pid prints its decimal
digits. -/
def lock_file_contents (hostname : List Char) (pid : Nat) (task_uid : List Char) :
    List Char :=
  hostname ++ '.' :: Nat.toDigits 10 pid ++ '.' :: task_uid

/-- Python's `str.split(".")`: greedy split at every dot, keeping empty
segments, so that the result is always nonempty. -/
def splitOnDot : List Char → List (List Char)
  | [] => [[]]
  | c :: cs =>
    if c = '.' then [] :: splitOnDot cs
    else
      match splitOnDot cs with
      | [] => [[c]]
      | g :: gs => (c :: g) :: gs

/-- Embedding of `_task_uid_from_lock_file`: `lock.split(".")[-1]`, the last segment. -/
def task_uid_from_lock_file (lock : List Char) : List Char :=
  (splitOnDot lock).getLastD []

/-! ## Wait-loop layer: `_wait_for_lock_to_disappear` (resolver.py lines 207-256)

One iteration of the `while tf.gfile.Exists(lock_file)` loop body is embedded
as `wait_step`.  The loop state holds the variables `locked_tmp_dir_size`
(initially `0`), `lock_file_content` (initially `None`) and
`locked_tmp_dir_size_check_time`; clock readings (`time.time()`) are
natural numbers.  One observation bundles what the iteration reads from the
environment: the current clock, whether the lock file still exists, whether
all reads performed during the staleness check succeeded (`read_ok = false`
models a `tf.errors.NotFoundError` caught by the `except` clause, which
leaves the loop state unchanged), the current size of the lock owner's
temporary directory and the current lock-file content. -/

structure WaitState where
  locked_tmp_dir_size : Nat
  lock_file_content : Option String
  locked_tmp_dir_size_check_time : Nat
deriving DecidableEq, Repr

structure WaitObs where
  now : Nat
  lock_exists : Bool
  read_ok : Bool
  cur_locked_tmp_dir_size : Nat
  cur_lock_file_content : String
deriving DecidableEq, Repr

inductive WaitAction where
  /-- the `while` condition failed: the lock file disappeared, return -/
  | finished
  /-- inactivity detected: `tf.gfile.Remove(lock_file)` and `break` -/
  | steal
  /-- `time.sleep(5)` and poll again -/
  | keep
deriving DecidableEq, Repr

/-- Initial loop state: `locked_tmp_dir_size = 0`,
`lock_file_content = None`, `locked_tmp_dir_size_check_time = time.time()`. -/
def wait_state_start (t0 : Nat) : WaitState :=
  { locked_tmp_dir_size := 0
    lock_file_content := none
    locked_tmp_dir_size_check_time := t0 }

/-- One iteration of the body of `_wait_for_lock_to_disappear`. -/
def wait_step (lock_file_timeout_sec : Nat) (st : WaitState) (obs : WaitObs) :
    WaitAction × WaitState :=
  if ¬ obs.lock_exists then (.finished, st)
  else if ¬ obs.read_ok then (.keep, st)
  else if obs.now - st.locked_tmp_dir_size_check_time > lock_file_timeout_sec then
    if obs.cur_locked_tmp_dir_size = st.locked_tmp_dir_size ∧
        some obs.cur_lock_file_content = st.lock_file_content then
      (.steal, st)
    else
      (.keep,
        { locked_tmp_dir_size := obs.cur_locked_tmp_dir_size
          lock_file_content := some obs.cur_lock_file_content
          locked_tmp_dir_size_check_time := obs.now })
  else (.keep, st)

/-! ## Resolver dispatch layer (resolver.py lines 350-481)

A concrete child resolver is a pair of pure functions: its `is_supported`
predicate and its `_get_module_path` body (total for the children modelled
here, as for `PathResolver`).  The base-class method `Resolver.get_module_path`
checks `is_supported` and raises `UnsupportedHandleError` otherwise;
`UseFirstSupportingResolver` instantiates the base method with
`is_supported = (_first_supported(handle) is not None)` and a
`_get_module_path` that re-runs `_first_supported` and delegates to the
child's `get_module_path`. -/

structure ChildResolver where
  is_supported : String → Bool
  module_path : String → String

inductive ResolveError where
  | unsupportedHandle
deriving DecidableEq, Repr

/-- Embedding of `Resolver.get_module_path`, parametrised by the instance methods
`self.is_supported` and `self._get_module_path`. -/
def base_get_module_path (sup : String → Bool)
    (getp : String → Except ResolveError String) (handle : String) :
    Except ResolveError String :=
  if sup handle then getp handle else .error .unsupportedHandle

/-- Embedding of `get_module_path` of a child resolver (its `_get_module_path` is total). -/
def child_get_module_path (r : ChildResolver) (handle : String) :
    Except ResolveError String :=
  base_get_module_path r.is_supported (fun s => .ok (r.module_path s)) handle

/-- Embedding of `UseFirstSupportingResolver._first_supported`: the first resolver in list
order whose `is_supported` returns true. -/
def first_supported (rs : List ChildResolver) (handle : String) :
    Option ChildResolver :=
  rs.find? (fun r => r.is_supported handle)

/-- Embedding of `UseFirstSupportingResolver.is_supported`. -/
def ufs_is_supported (rs : List ChildResolver) (handle : String) : Bool :=
  (first_supported rs handle).isSome

/-- Embedding of `UseFirstSupportingResolver._get_module_path`. -/
def ufs_inner_get_module_path (rs : List ChildResolver) (handle : String) :
    Except ResolveError String :=
  match first_supported rs handle with
  | none => .error .unsupportedHandle
  | some r => child_get_module_path r handle

/-- Embedding of `get_module_path` called on a `UseFirstSupportingResolver`. -/
def ufs_get_module_path (rs : List ChildResolver) (handle : String) :
    Except ResolveError String :=
  base_get_module_path (ufs_is_supported rs) (ufs_inner_get_module_path rs) handle

/-- A child resolver that supports nothing. -/
def resolver_none : ChildResolver :=
  { is_supported := fun _ => false, module_path := fun _ => "unused" }

/-- A child resolver that supports everything and echoes the handle, like
`PathResolver`. -/
def resolver_path : ChildResolver :=
  { is_supported := fun _ => true, module_path := fun handle => handle }

/-! ## Protocol layer: `atomic_download` (resolver.py lines 259-347)

Each task is one process executing `atomic_download(handle, download_fn,
module_dir, lock_file_timeout_sec)` for the same `module_dir`.  The program
counter follows the control flow of the Python function:

* `tryLock`: the `atomic_write_string_to_file(lock_file, lock_contents,
  overwrite=False)` attempt at the top of the `while` loop; it succeeds only
  if the lock file is absent (otherwise `tf.errors.OpError` sends the task to
  the wait phase);
* `waiting`: inside `_wait_for_lock_to_disappear`; polling (`go`) re-enters
  `tryLock` once the lock is gone, and the staleness timeout is abstracted
  into the nondeterministic `steal` event, which removes another task's lock
  and breaks back to `tryLock`;
* `postCheck`: the `tf.gfile.Exists(module_dir)` re-check after acquiring the
  lock; if the directory exists the task returns (entering the `finally`
  cleanup), otherwise it proceeds to the download;
* `download`: `tf.gfile.MakeDirs(tmp_dir)` followed by
  `download_fn(handle, tmp_dir)`; the task's `fail` field tells whether its
  `download_fn` raises (`some e`) or succeeds (`none`);
* `publish`: `_write_module_descriptor_file` followed by
  `tf.gfile.Rename(tmp_dir, module_dir)` with `tf.errors.AlreadyExistsError`
  absorbed;
* `cleanup r`: the `finally` block (delete the temporary directory, swallow
  `NotFoundError`; re-read the lock file and delete it only if its content is
  still this task's identity), after which the call finishes with outcome `r`;
* `done r`: the call returned (`r = ok` means it returned the `module_dir`
  argument; `r = err e` means it re-raised `e` from `download_fn`).

The shared state records the lock file as `Option Nat`: `some i` means the
lock file exists and its content is task `i`'s identity string
`{hostname}.{pid}.{task_uid}`; identities of distinct tasks are distinct
because every attempt draws a fresh `uuid.uuid4().hex` (see
`task_uid_round_trip` for the content round-trip at string level). -/

inductive Outcome (ε : Type) where
  | ok
  | err (e : ε)
deriving DecidableEq, Repr

inductive PC (ε : Type) where
  | tryLock
  | waiting
  | postCheck
  | download
  | publish
  | cleanup (r : Outcome ε)
  | done (r : Outcome ε)
deriving DecidableEq, Repr

structure Task (ε : Type) where
  pc : PC ε
  downloaded : Bool
  tmp : Bool
  fail : Option ε
deriving DecidableEq, Repr

structure Sys (ε : Type) where
  lock : Option Nat
  module_dir : Bool
  descriptor : Bool
  tasks : Nat → Task ε

inductive Ev where
  | go
  | steal
deriving DecidableEq, Repr

def updTask (f : Nat → Task ε) (i : Nat) (t : Task ε) : Nat → Task ε :=
  fun j => if j = i then t else f j

/-- One atomic step of task `i` (out of `n` tasks) on the shared state. -/
def step (n : Nat) (s : Sys ε) (i : Nat) (ev : Ev) : Option (Sys ε) :=
  if i < n then
    match (s.tasks i).pc, ev with
    | .tryLock, .go =>
      match s.lock with
      | none =>
        some { s with
                lock := some i
                tasks := updTask s.tasks i { s.tasks i with pc := .postCheck } }
      | some _ =>
        some { s with
                tasks := updTask s.tasks i { s.tasks i with pc := .waiting } }
    | .waiting, .go =>
      match s.lock with
      | none =>
        some { s with
                tasks := updTask s.tasks i { s.tasks i with pc := .tryLock } }
      | some _ => some s
    | .waiting, .steal =>
      match s.lock with
      | some j =>
        if j ≠ i then
          some { s with
                  lock := none
                  tasks := updTask s.tasks i { s.tasks i with pc := .tryLock } }
        else none
      | none => none
    | .postCheck, .go =>
      if s.module_dir then
        some { s with
                tasks := updTask s.tasks i { s.tasks i with pc := .cleanup .ok } }
      else
        some { s with
                tasks := updTask s.tasks i { s.tasks i with pc := .download } }
    | .download, .go =>
      match (s.tasks i).fail with
      | some e =>
        some { s with
                tasks := updTask s.tasks i
                  { s.tasks i with tmp := true, pc := .cleanup (.err e) } }
      | none =>
        some { s with
                tasks := updTask s.tasks i
                  { s.tasks i with tmp := true, downloaded := true, pc := .publish } }
    | .publish, .go =>
      if s.module_dir then
        some { s with
                descriptor := true
                tasks := updTask s.tasks i { s.tasks i with pc := .cleanup .ok } }
      else
        some { s with
                descriptor := true
                module_dir := true
                tasks := updTask s.tasks i
                  { s.tasks i with tmp := false, pc := .cleanup .ok } }
    | .cleanup r, .go =>
      some { s with
              lock := if s.lock = some i then none else s.lock
              tasks := updTask s.tasks i
                { s.tasks i with tmp := false, pc := .done r } }
    | _, _ => none
  else none

/-- All tasks at the top of `atomic_download`: lock file absent, module
directory absent, each task's `download_fn` behaviour given by `fail`. -/
def init_sys (fail : Nat → Option ε) : Sys ε :=
  { lock := none
    module_dir := false
    descriptor := false
    tasks := fun i =>
      { pc := .tryLock, downloaded := false, tmp := false, fail := fail i } }

/-- Run a schedule: a list of (task index, event) pairs. -/
def run (n : Nat) : Sys ε → List (Nat × Ev) → Option (Sys ε)
  | s, [] => some s
  | s, e :: tr =>
    match step n s e.1 e.2 with
    | some s1 => run n s1 tr
    | none => none

/-- A single caller whose `module_dir` already exists when the call starts. -/
def init_dir_exists : Sys Unit :=
  { init_sys (fun _ => none) with module_dir := true }

/-- A single caller whose `download_fn` raises `e`. -/
def init_fail (e : ε) : Sys ε :=
  init_sys (fun _ => some e)

/-- Two callers, neither of whose `download_fn` raises. -/
def init_two : Sys Unit :=
  init_sys (fun _ => none)

/-- A schedule of two callers in which caller 1 steals caller 0's lock via the
staleness timeout while caller 0 is still downloading. -/
def steal_schedule : List (Nat × Ev) :=
  [(0, .go), (1, .go), (0, .go), (1, .steal), (1, .go), (1, .go),
   (0, .go), (1, .go), (0, .go), (0, .go), (1, .go), (1, .go)]

/-- A steal-free schedule of two callers: caller 0 downloads and publishes,
caller 1 waits and then observes the published directory. -/
def fair_schedule : List (Nat × Ev) :=
  [(0, .go), (1, .go), (0, .go), (0, .go), (0, .go), (0, .go),
   (1, .go), (1, .go), (1, .go), (1, .go)]

/-- A concrete state of one task that holds the lock at the post-acquisition
existence check while the module directory exists. -/
def sys_postCheck : Sys Unit :=
  { lock := some 0
    module_dir := true
    descriptor := false
    tasks := fun _ =>
      { pc := .postCheck, downloaded := false, tmp := false, fail := none } }

/-- A concrete state of one task that holds the lock and entered the
`finally` cleanup after a successful publish. -/
def sys_cleanup : Sys Unit :=
  { lock := some 0
    module_dir := true
    descriptor := true
    tasks := fun _ =>
      { pc := .cleanup .ok, downloaded := true, tmp := true, fail := none } }

/-- A concrete state of one task about to rename its temporary directory
while the destination directory already exists. -/
def sys_publish : Sys Unit :=
  { lock := some 0
    module_dir := true
    descriptor := false
    tasks := fun _ =>
      { pc := .publish, downloaded := true, tmp := true, fail := none } }

/-! ### Fine-grained embedding of the `finally` block (resolver.py lines 330-345)

The `.cleanup` arm of `step` above merges the lock handling of the `finally`
block into one atomic check-and-delete, which is exact for steal-free
interleavings.  In the source, however, the block performs three separate
filesystem operations: `tf.gfile.DeleteRecursively(tmp_dir)` (swallowing
`NotFoundError`), then `contents = tf_utils.read_file_to_string(lock_file)`
(`""` on `NotFoundError`), then `if contents == lock_contents:
tf.gfile.Remove(lock_file)`.  Between the read and the `Remove`, other
processes can still act on the lock file: a waiter may force-delete it
(staleness reclamation, line 245) and then re-create it with its own
identity (line 292).  The micro-model below embeds the block at this
granularity for one cleaning task `me`, with the lock file again represented
by the identity written in its content (`none` = file absent), and with the
interference events of the other processes. -/

inductive CleanPC where
  /-- about to run `tf.gfile.DeleteRecursively(tmp_dir)` -/
  | deleteTmp
  /-- about to run `contents = tf_utils.read_file_to_string(lock_file)` -/
  | readLock
  /-- about to run `if contents == lock_contents: tf.gfile.Remove(lock_file)`,
  holding the value `contents` that the read returned -/
  | removeLock (contents : Option Nat)
  /-- the `finally` block finished -/
  | finished
deriving DecidableEq, Repr

structure CleanState where
  lock : Option Nat
  tmp : Bool
  cpc : CleanPC
deriving DecidableEq, Repr

inductive CleanEv where
  /-- the cleaning task executes its next operation -/
  | me
  /-- another process force-deletes the current lock file (stale-lock
  reclamation in `_wait_for_lock_to_disappear`) -/
  | envSteal
  /-- another process `j` creates the lock file with its own identity
  (`atomic_write_string_to_file(..., overwrite=False)`, so only when the
  file is absent) -/
  | envAcquire (j : Nat)
deriving DecidableEq, Repr

/-- One operation of the `finally` block of task `me`, or one interference
event by another process. -/
def cleanup_step (me : Nat) (s : CleanState) (ev : CleanEv) :
    Option CleanState :=
  match ev with
  | .me =>
    match s.cpc with
    | .deleteTmp => some { s with tmp := false, cpc := .readLock }
    | .readLock => some { s with cpc := .removeLock s.lock }
    | .removeLock c =>
      if c = some me then some { s with lock := none, cpc := .finished }
      else some { s with cpc := .finished }
    | .finished => none
  | .envSteal =>
    match s.lock with
    | some _ => some { s with lock := none }
    | none => none
  | .envAcquire j =>
    match s.lock with
    | none => if j ≠ me then some { s with lock := some j } else none
    | some _ => none

/-- Run a schedule of cleanup and interference events. -/
def cleanup_run (me : Nat) : CleanState → List CleanEv → Option CleanState
  | s, [] => some s
  | s, ev :: tr =>
    match cleanup_step me s ev with
    | some s1 => cleanup_run me s1 tr
    | none => none

/-- Task 0 entering its `finally` block while still owning the lock. -/
def clean_start : CleanState :=
  { lock := some 0, tmp := true, cpc := .deleteTmp }

/-- A schedule in which, between task 0 reading its own identity from the
lock file and removing the lock file, another process steals the lock and
re-acquires it with its own identity. -/
def clean_race_schedule : List CleanEv :=
  [.me, .me, .envSteal, .envAcquire 1, .me]

/-- Inversion relation for `step`: one constructor per reachable arm of the
transition function, used to reason about arbitrary steps. -/
inductive StepRel (n : Nat) (s : Sys ε) (i : Nat) : Ev → Sys ε → Prop where
  | lockAcquired (hn : i < n) (hpc : (s.tasks i).pc = .tryLock)
      (hl : s.lock = none) :
      StepRel n s i .go
        { s with
            lock := some i
            tasks := updTask s.tasks i { s.tasks i with pc := .postCheck } }
  | lockBusy (hn : i < n) (hpc : (s.tasks i).pc = .tryLock) (j : Nat)
      (hl : s.lock = some j) :
      StepRel n s i .go
        { s with tasks := updTask s.tasks i { s.tasks i with pc := .waiting } }
  | pollFree (hn : i < n) (hpc : (s.tasks i).pc = .waiting)
      (hl : s.lock = none) :
      StepRel n s i .go
        { s with tasks := updTask s.tasks i { s.tasks i with pc := .tryLock } }
  | pollBusy (hn : i < n) (hpc : (s.tasks i).pc = .waiting) (j : Nat)
      (hl : s.lock = some j) :
      StepRel n s i .go s
  | stealLock (hn : i < n) (hpc : (s.tasks i).pc = .waiting) (j : Nat)
      (hl : s.lock = some j) (hne : j ≠ i) :
      StepRel n s i .steal
        { s with
            lock := none
            tasks := updTask s.tasks i { s.tasks i with pc := .tryLock } }
  | checkExists (hn : i < n) (hpc : (s.tasks i).pc = .postCheck)
      (hdir : s.module_dir = true) :
      StepRel n s i .go
        { s with
            tasks := updTask s.tasks i { s.tasks i with pc := .cleanup .ok } }
  | checkAbsent (hn : i < n) (hpc : (s.tasks i).pc = .postCheck)
      (hdir : s.module_dir = false) :
      StepRel n s i .go
        { s with tasks := updTask s.tasks i { s.tasks i with pc := .download } }
  | downloadFail (hn : i < n) (hpc : (s.tasks i).pc = .download) (e : ε)
      (hf : (s.tasks i).fail = some e) :
      StepRel n s i .go
        { s with
            tasks := updTask s.tasks i
              { s.tasks i with tmp := true, pc := .cleanup (.err e) } }
  | downloadOk (hn : i < n) (hpc : (s.tasks i).pc = .download)
      (hf : (s.tasks i).fail = none) :
      StepRel n s i .go
        { s with
            tasks := updTask s.tasks i
              { s.tasks i with tmp := true, downloaded := true, pc := .publish } }
  | publishExists (hn : i < n) (hpc : (s.tasks i).pc = .publish)
      (hdir : s.module_dir = true) :
      StepRel n s i .go
        { s with
            descriptor := true
            tasks := updTask s.tasks i { s.tasks i with pc := .cleanup .ok } }
  | publishFresh (hn : i < n) (hpc : (s.tasks i).pc = .publish)
      (hdir : s.module_dir = false) :
      StepRel n s i .go
        { s with
            descriptor := true
            module_dir := true
            tasks := updTask s.tasks i
              { s.tasks i with tmp := false, pc := .cleanup .ok } }
  | finishCleanup (hn : i < n) (r : Outcome ε)
      (hpc : (s.tasks i).pc = .cleanup r) :
      StepRel n s i .go
        { s with
            lock := if s.lock = some i then none else s.lock
            tasks := updTask s.tasks i
              { s.tasks i with tmp := false, pc := .done r } }

structure Inv (n : Nat) (s : Sys ε) : Prop where
  fail_none : ∀ i, (s.tasks i).fail = none
  crit_lock : ∀ i, ((s.tasks i).pc = .postCheck ∨ (s.tasks i).pc = .download ∨
      (s.tasks i).pc = .publish) → s.lock = some i
  dl_pc : ∀ i, (s.tasks i).downloaded = true →
      (s.tasks i).pc = .publish ∨ (s.tasks i).pc = .cleanup .ok ∨
      (s.tasks i).pc = .done .ok
  end_dir : ∀ i r, ((s.tasks i).pc = .cleanup r ∨ (s.tasks i).pc = .done r) →
      s.module_dir = true
  dir_dl : s.module_dir = true → ∃ i, (s.tasks i).downloaded = true
  download_dir : ∀ i, (s.tasks i).pc = .download → s.module_dir = false
  pub_dl : ∀ i, (s.tasks i).pc = .publish → (s.tasks i).downloaded = true
  dl_unique : ∀ i j, (s.tasks i).downloaded = true →
      (s.tasks j).downloaded = true → i = j
  end_ok : ∀ i r, ((s.tasks i).pc = .cleanup r ∨ (s.tasks i).pc = .done r) →
      r = .ok

set_option maxHeartbeats 1000000

theorem length_append_ne (a b : String) (h : b.length ≠ 0) : a ++ b ≠ a := by
  intro he
  have : (a ++ b).length = a.length := by rw [he]
  rw [String.length_append] at this
  omega

/-- The lock file path differs from the module directory path. -/
theorem lock_filename_ne (module_dir : String) :
    lock_filename module_dir ≠ module_dir :=
  length_append_ne module_dir ".lock" (by decide)

/-- The temporary download directory path differs from the module directory path. -/
theorem temp_download_dir_ne (module_dir task_uid : String) :
    temp_download_dir module_dir task_uid ≠ module_dir := by
  intro he
  have hlen : (temp_download_dir module_dir task_uid).length = module_dir.length := by
    rw [he]
  have h1 : ".".length = 1 := rfl
  have h4 : ".tmp".length = 4 := rfl
  simp only [temp_download_dir, String.length_append, h1, h4] at hlen
  omega

/-- The descriptor file path differs from the module directory path. -/
theorem module_descriptor_file_ne (module_dir : String) :
    module_descriptor_file module_dir ≠ module_dir :=
  length_append_ne module_dir ".descriptor.txt" (by decide)

theorem splitOnDot_ne_nil (l : List Char) : splitOnDot l ≠ [] := by
  induction l with
  | nil => simp [splitOnDot]
  | cons c cs ih =>
    simp only [splitOnDot]
    split
    · simp
    · split
      · simp
      · simp

theorem splitOnDot_no_dot (l : List Char) (h : '.' ∉ l) : splitOnDot l = [l] := by
  induction l with
  | nil => rfl
  | cons c cs ih =>
    simp only [List.mem_cons, not_or] at h
    simp only [splitOnDot]
    rw [if_neg (fun hc => h.1 hc.symm), ih h.2]

theorem splitOnDot_length_ge_two (l : List Char) (h : '.' ∈ l) :
    2 ≤ (splitOnDot l).length := by
  induction l with
  | nil => simp at h
  | cons c cs ih =>
    simp only [splitOnDot]
    split
    · have h1 : splitOnDot cs ≠ [] := splitOnDot_ne_nil cs
      have : 1 ≤ (splitOnDot cs).length := by
        cases hl : splitOnDot cs with
        | nil => exact absurd hl h1
        | cons a t => simp
      simp only [List.length_cons]
      omega
    · rename_i hc
      have hcs : '.' ∈ cs := by
        rcases List.mem_cons.mp h with h1 | h1
        · exact absurd h1.symm hc
        · exact h1
      have h2 := ih hcs
      cases hl : splitOnDot cs with
      | nil => exact absurd hl (splitOnDot_ne_nil cs)
      | cons g gs =>
        rw [hl] at h2
        simp only [List.length_cons] at h2 ⊢
        omega

theorem getLastD_of_ne_nil (l : List α) (h : l ≠ []) (d₁ d₂ : α) :
    l.getLastD d₁ = l.getLastD d₂ := by
  cases l with
  | nil => exact absurd rfl h
  | cons x t => rw [List.getLastD_cons, List.getLastD_cons]

theorem splitOnDot_cons_dot (cs : List Char) :
    splitOnDot ('.' :: cs) = [] :: splitOnDot cs := by
  simp [splitOnDot]

theorem splitOnDot_cons_ne (c : Char) (cs : List Char) (h : ¬ c = '.') :
    splitOnDot (c :: cs) =
      match splitOnDot cs with
      | [] => [[c]]
      | g :: gs => (c :: g) :: gs := by
  simp only [splitOnDot]
  rw [if_neg h]

/-- Splitting a string of the form `a ++ "." ++ u` on dots and taking the last
segment gives the same answer as doing so on `u` alone. -/
theorem splitOnDot_append_dot (a u : List Char) :
    (splitOnDot (a ++ '.' :: u)).getLastD [] = (splitOnDot u).getLastD [] := by
  induction a with
  | nil =>
    rw [List.nil_append, splitOnDot_cons_dot, List.getLastD_cons]
  | cons c a ih =>
    rw [List.cons_append]
    by_cases hc : c = '.'
    · subst hc
      rw [splitOnDot_cons_dot, List.getLastD_cons]
      exact ih
    · rw [splitOnDot_cons_ne c _ hc]
      cases hl : splitOnDot (a ++ '.' :: u) with
      | nil => exact absurd hl (splitOnDot_ne_nil _)
      | cons g gs =>
        have hlen : 2 ≤ (splitOnDot (a ++ '.' :: u)).length :=
          splitOnDot_length_ge_two _ (by simp)
        rw [hl] at hlen
        simp only [List.length_cons] at hlen
        have hgs : gs ≠ [] := by
          cases gs with
          | nil => simp at hlen
          | cons y t => simp
        rw [← ih, hl, List.getLastD_cons, List.getLastD_cons]
        exact getLastD_of_ne_nil _ hgs _ _

/-- C10: for every `task_uid` containing no `'.'`, parsing a lock file whose
content was produced by `_lock_file_contents(task_uid)` with
`_task_uid_from_lock_file` recovers exactly `task_uid`, for any hostname
(dots included) and any pid, because the parser takes the last dot-separated
segment of the content string. -/
theorem task_uid_round_trip (hostname : List Char) (pid : Nat)
    (task_uid : List Char) (h : '.' ∉ task_uid) :
    task_uid_from_lock_file (lock_file_contents hostname pid task_uid) = task_uid := by
  unfold task_uid_from_lock_file lock_file_contents
  have he : hostname ++ '.' :: Nat.toDigits 10 pid ++ '.' :: task_uid
      = hostname ++ '.' :: (Nat.toDigits 10 pid ++ '.' :: task_uid) := by
    simp
  rw [he, splitOnDot_append_dot, splitOnDot_append_dot, splitOnDot_no_dot _ h,
    List.getLastD_cons]
  rfl

/-- Witness for C10 at a dotted hostname, pid 42 and uid "uid". -/
theorem task_uid_round_trip_witness :
    ('.' ∉ ['u', 'i', 'd']) ∧
      task_uid_from_lock_file
        (lock_file_contents ['h', 'o', '.', 's', 't'] 42 ['u', 'i', 'd'])
        = ['u', 'i', 'd'] :=
  ⟨by decide, task_uid_round_trip ['h', 'o', '.', 's', 't'] 42 ['u', 'i', 'd'] (by decide)⟩

/-- C3: an iteration of the wait loop steals (forcibly deletes) the other
task's lock file exactly when the lock still exists, the reads succeed, more
than `lock_file_timeout_sec` elapsed since the last staleness check, and both
the observed temp-directory size and the observed lock content are unchanged
since that check; when the window expired but either observation changed, the
lock is not stolen and the clock and both tracked observations are reset. -/
theorem wait_step_staleness (lock_file_timeout_sec : Nat) (st : WaitState)
    (obs : WaitObs) :
    ((wait_step lock_file_timeout_sec st obs).1 = .steal ↔
      obs.lock_exists = true ∧ obs.read_ok = true ∧
        obs.now - st.locked_tmp_dir_size_check_time > lock_file_timeout_sec ∧
        obs.cur_locked_tmp_dir_size = st.locked_tmp_dir_size ∧
        some obs.cur_lock_file_content = st.lock_file_content) ∧
    (obs.lock_exists = true → obs.read_ok = true →
      obs.now - st.locked_tmp_dir_size_check_time > lock_file_timeout_sec →
      ¬(obs.cur_locked_tmp_dir_size = st.locked_tmp_dir_size ∧
          some obs.cur_lock_file_content = st.lock_file_content) →
      wait_step lock_file_timeout_sec st obs =
        (.keep,
          { locked_tmp_dir_size := obs.cur_locked_tmp_dir_size
            lock_file_content := some obs.cur_lock_file_content
            locked_tmp_dir_size_check_time := obs.now })) := by
  constructor
  · unfold wait_step
    split
    · rename_i hex
      simp only [Bool.not_eq_true] at hex
      simp [hex]
    · split
      · rename_i hex hro
        simp only [Bool.not_eq_true] at hro
        simp [hro]
      · split
        · split
          · rename_i hex hro htime hsame
            simp only [Bool.not_eq_true, Bool.not_eq_false] at hex hro
            simp [hex, hro, htime, hsame]
          · rename_i hex hro htime hsame
            simp only [not_and] at hsame
            constructor
            · intro hc
              simp at hc
            · rintro ⟨-, -, -, h4, h5⟩
              exact absurd h5 (hsame h4)
        · rename_i hex hro htime
          constructor
          · intro hc
            simp at hc
          · rintro ⟨-, -, h3, -, -⟩
            exact absurd h3 htime
  · intro hex hro htime hchanged
    unfold wait_step
    rw [if_neg (by simp [hex]), if_neg (by simp [hro]), if_pos htime,
      if_neg hchanged]

/-- Witness for C3: after the timeout window expires with a changed
temp-directory size, the lock is not stolen and the tracking state is reset. -/
theorem wait_step_staleness_witness :
    wait_step 60 (wait_state_start 100)
        { now := 200
          lock_exists := true
          read_ok := true
          cur_locked_tmp_dir_size := 7
          cur_lock_file_content := "host.1.uid" } =
      (.keep,
        { locked_tmp_dir_size := 7
          lock_file_content := some "host.1.uid"
          locked_tmp_dir_size_check_time := 200 }) :=
  (wait_step_staleness 60 (wait_state_start 100) _).2 rfl rfl (by decide) (by decide)

/-- C9: `get_module_path` on the composite resolver raises
`UnsupportedHandleError` exactly when no child resolver supports the handle,
and otherwise returns the module path produced by the first child in list
order whose `is_supported` holds; an unsupported handle yields the error
directly (no retry: `ufs_get_module_path` is a plain function of the
resolver list and the handle). -/
theorem ufs_get_module_path_spec (rs : List ChildResolver) (handle : String) :
    (ufs_get_module_path rs handle = .error .unsupportedHandle ↔
      ∀ r ∈ rs, r.is_supported handle = false) ∧
    ∀ r, first_supported rs handle = some r →
      ufs_get_module_path rs handle = .ok (r.module_path handle) := by
  constructor
  · unfold ufs_get_module_path base_get_module_path ufs_is_supported
    cases hf : first_supported rs handle with
    | none =>
      have hf' : rs.find? (fun x => x.is_supported handle) = none := hf
      simp only [hf, Option.isSome_none, Bool.false_eq_true, if_false, true_iff]
      intro r hr
      have := List.find?_eq_none.mp hf' r hr
      simpa using this
    | some r =>
      have hf' : rs.find? (fun x => x.is_supported handle) = some r := hf
      have hsup : r.is_supported handle = true := by
        have := List.find?_some hf'
        simpa using this
      have hmem : r ∈ rs := List.mem_of_find?_eq_some hf'
      simp only [hf, Option.isSome_some, if_true]
      constructor
      · intro hc
        unfold ufs_inner_get_module_path at hc
        rw [hf] at hc
        simp only [child_get_module_path, base_get_module_path, hsup,
          if_true] at hc
        exact Except.noConfusion hc
      · intro hall
        exact absurd hsup (by simp [hall r hmem])
  · intro r hf
    have hf' : rs.find? (fun x => x.is_supported handle) = some r := hf
    have hsup : r.is_supported handle = true := by
      have := List.find?_some hf'
      simpa using this
    unfold ufs_get_module_path base_get_module_path ufs_is_supported
    rw [hf]
    simp only [Option.isSome_some, if_true]
    unfold ufs_inner_get_module_path
    rw [hf]
    simp only [child_get_module_path, base_get_module_path, hsup, if_true]

/-- Witness for C9: with children `[resolver_none, resolver_path]`, the
composite returns the second child's path. -/
theorem ufs_get_module_path_spec_witness :
    ufs_get_module_path [resolver_none, resolver_path] "/tmp/m"
      = .ok (resolver_path.module_path "/tmp/m") :=
  (ufs_get_module_path_spec [resolver_none, resolver_path] "/tmp/m").2
    resolver_path rfl

/-- Every successful `step` is described by `StepRel`. -/
theorem step_sound {ε : Type} {n : Nat} {s s' : Sys ε} {i : Nat} {ev : Ev}
    (h : step n s i ev = some s') : StepRel n s i ev s' := by
  unfold step at h
  split at h
  · split at h <;> first
      | exact Option.noConfusion h
      | (injection h with h2; subst h2; subst_vars; first
          | exact StepRel.lockAcquired ‹_› ‹_› ‹_›
          | exact StepRel.pollFree ‹_› ‹_› ‹_›
          | exact StepRel.checkExists ‹_› ‹_› ‹_›
          | exact StepRel.checkAbsent ‹_› ‹_› ‹_›
          | exact StepRel.downloadOk ‹_› ‹_› ‹_›
          | exact StepRel.publishExists ‹_› ‹_› ‹_›
          | exact StepRel.publishFresh ‹_› ‹_› ‹_›
          | exact StepRel.finishCleanup ‹_› _ ‹_›
          | exact StepRel.lockBusy ‹_› ‹_› _ ‹_›
          | exact StepRel.pollBusy ‹_› ‹_› _ ‹_›
          | exact StepRel.downloadFail ‹_› ‹_› _ ‹_›)
      | (split at h <;> first
          | exact Option.noConfusion h
          | (injection h with h2; subst h2; subst_vars; first
              | exact StepRel.lockAcquired ‹_› ‹_› ‹_›
              | exact StepRel.pollFree ‹_› ‹_› ‹_›
              | exact StepRel.checkExists ‹_› ‹_› ‹_›
              | exact StepRel.checkAbsent ‹_› ‹_› (by simp_all)
              | exact StepRel.downloadOk ‹_› ‹_› ‹_›
              | exact StepRel.publishExists ‹_› ‹_› ‹_›
              | exact StepRel.publishFresh ‹_› ‹_› (by simp_all)
              | exact StepRel.finishCleanup ‹_› _ ‹_›
              | exact StepRel.lockBusy ‹_› ‹_› _ ‹_›
              | exact StepRel.pollBusy ‹_› ‹_› _ ‹_›
              | exact StepRel.downloadFail ‹_› ‹_› _ ‹_›)
          | (split at h <;> first
              | exact Option.noConfusion h
              | (injection h with h2; subst h2; subst_vars; first
                  | exact StepRel.stealLock ‹_› ‹_› _ ‹_› ‹_›
                  | exact StepRel.lockAcquired ‹_› ‹_› ‹_›
                  | exact StepRel.pollFree ‹_› ‹_› ‹_›
                  | exact StepRel.lockBusy ‹_› ‹_› _ ‹_›
                  | exact StepRel.pollBusy ‹_› ‹_› _ ‹_›)))
  · exact Option.noConfusion h

/-- Counterexample to C2: `atomic_download` has no lock-free fast path.  With
`module_dir` already existing at call start, the very first action of the
call writes the lock file (the task moves to the post-acquisition existence
check holding the lock), and the only other conceivable event (`steal`) is
not even enabled. -/
theorem no_lock_free_fast_path :
    (step 1 init_dir_exists 0 .go).map (fun s => (s.lock, (s.tasks 0).pc))
        = some (some 0, .postCheck)
    ∧ step 1 init_dir_exists 0 .steal = none := by
  exact ⟨rfl, rfl⟩

/-- C2 amended: when `module_dir` already exists at call start, the call
still returns `module_dir` without ever invoking `download_fn`, but only
after first creating the lock file and then releasing it: after the first
step the lock file exists with this task's identity, and the completed call
ends with outcome `ok`, `downloaded = false`, the lock file removed and the
module directory intact. -/
theorem dir_exists_returns_after_locking :
    (run 1 init_dir_exists [(0, .go), (0, .go), (0, .go)]).map
        (fun s => ((s.tasks 0).pc, (s.tasks 0).downloaded, s.lock, s.module_dir))
      = some (.done .ok, false, none, true) := by
  exact rfl

/-- C4: if `download_fn` raises `e`, the call propagates exactly `e` (outcome
`err e`), and afterwards the task's temporary download directory is gone and
no lock file owned by this task remains. -/
theorem download_failure_cleanup (ε : Type) (e : ε) :
    (run 1 (init_fail e) [(0, .go), (0, .go), (0, .go), (0, .go)]).map
        (fun s => ((s.tasks 0).pc, (s.tasks 0).tmp, s.lock, s.module_dir))
      = some (.done (.err e), false, none, false) := by
  exact rfl

/-- Counterexample to C1: a legitimate execution of two concurrent callers on
an initially absent `module_dir` in which the staleness timeout fires while
caller 0 is still downloading; caller 1 steals the lock and downloads too, so
`download_fn` runs twice even though both callers return successfully. -/
theorem two_downloads_after_steal :
    (run 2 init_two steal_schedule).map
        (fun s => ((s.tasks 0).downloaded, (s.tasks 1).downloaded,
          (s.tasks 0).pc, (s.tasks 1).pc, s.module_dir))
      = some (true, true, .done .ok, .done .ok, true) := by
  exact rfl

theorem updTask_self (f : Nat → Task ε) (i : Nat) (t : Task ε) :
    updTask f i t i = t := by
  simp [updTask]

theorem updTask_ne (f : Nat → Task ε) (i : Nat) (t : Task ε) (j : Nat)
    (h : j ≠ i) : updTask f i t j = f j := by
  simp [updTask, h]

theorem updTask_updTask (f : Nat → Task ε) (i : Nat) (t t' : Task ε) :
    updTask (updTask f i t) i t' = updTask f i t' := by
  funext j
  by_cases hj : j = i
  · subst hj
    rw [updTask_self, updTask_self]
  · rw [updTask_ne _ _ _ _ hj, updTask_ne _ _ _ _ hj, updTask_ne _ _ _ _ hj]

/-- C5: whenever a task has just created the lock file (it is the lock owner)
and the post-acquisition re-check sees that `module_dir` exists — in
particular on any call made after a prior successful call published the
directory — the call finishes with outcome `ok` (returning `module_dir`),
the lock file the task created is deleted, and `download_fn` is never
invoked. -/
theorem lock_acquired_dir_exists (ε : Type) (n : Nat) (s : Sys ε) (i : Nat)
    (hn : i < n) (hpc : (s.tasks i).pc = .postCheck) (hl : s.lock = some i)
    (hdir : s.module_dir = true) (hdl : (s.tasks i).downloaded = false) :
    ∃ s1 s2, step n s i .go = some s1 ∧ step n s1 i .go = some s2 ∧
      (s2.tasks i).pc = .done .ok ∧ s2.lock = none ∧
      (s2.tasks i).downloaded = false := by
  refine ⟨{ s with
        tasks := updTask s.tasks i { s.tasks i with pc := .cleanup .ok } },
    { s with
        lock := none
        tasks := updTask s.tasks i
          { s.tasks i with tmp := false, pc := .done .ok } },
    ?_, ?_, ?_, ?_, ?_⟩
  · simp [step, hn, hpc, hdir]
  · simp [step, hn, updTask_self, updTask_updTask, hl]
  · simp [updTask_self]
  · rfl
  · simp [updTask_self, hdl]

/-- Witness for C5: a lock-holding task at the existence re-check with the
directory already published finishes with `ok`, releases its lock, and never
downloads. -/
theorem lock_acquired_dir_exists_witness :
    ∃ s1 s2, step 1 sys_postCheck 0 .go = some s1 ∧ step 1 s1 0 .go = some s2 ∧
      (s2.tasks 0).pc = .done .ok ∧ s2.lock = none ∧
      (s2.tasks 0).downloaded = false :=
  lock_acquired_dir_exists Unit 1 sys_postCheck 0 (by decide) rfl rfl rfl rfl

/-- Counterexample to C6: the `finally` block reads the lock file, compares,
and removes it in three separate filesystem operations.  In the schedule
`clean_race_schedule`, task 0 deletes its temp dir and reads its own
identity from the lock file; another process then force-deletes the lock
(staleness reclamation) and re-creates it with identity 1; at that moment
task 0 is at its remove operation holding the stale read value `some 0`
while the lock file's current content is task 1's identity, and the final
step deletes that lock file.  So on this execution path the cleanup phase
deletes a lock file whose current content does not match the task's own
identity. -/
theorem cleanup_race_deletes_foreign_lock :
    (cleanup_run 0 clean_start (clean_race_schedule.take 4)).map
        (fun s => (s.lock, s.cpc))
      = some (some 1, .removeLock (some 0))
    ∧ (cleanup_run 0 clean_start clean_race_schedule).map
        (fun s => (s.lock, s.tmp, s.cpc))
      = some (none, false, .finished) := by
  exact ⟨rfl, rfl⟩

/-- C6 amended: the cleanup phase deletes the lock file only when the
content it read — in the separate read operation at the start of the
ownership check — equals the task's own identity; a non-matching read leaves
the lock file exactly as found.  Because the read and the delete are
distinct operations, the guarantee about the lock's *current* content holds
only when the lock file is not modified in between (in particular, in every
execution without a concurrent steal): if the content at the moment of the
remove still equals the content read, then a deleted lock file's current
content is the task's own identity. -/
theorem cleanup_checks_read_content (me : Nat) (s : CleanState)
    (c : Option Nat) (hpc : s.cpc = .removeLock c) :
    (cleanup_step me s .me
        = some (if c = some me then { s with lock := none, cpc := .finished }
            else { s with cpc := .finished }))
    ∧ (s.lock = c → ∀ s', cleanup_step me s .me = some s' →
        s'.lock ≠ s.lock → s.lock = some me) := by
  constructor
  · simp only [cleanup_step, hpc]
    split <;> rfl
  · intro hread s' hstep hchanged
    by_cases hc : c = some me
    · rw [hread, hc]
    · rw [cleanup_step, hpc] at hstep
      simp only [if_neg hc] at hstep
      cases hstep
      exact absurd rfl hchanged

/-- Witness for C6 amended: a remove operation whose read content is the
task's own identity, with the lock unchanged since the read, deletes the
task's own lock. -/
theorem cleanup_checks_read_content_witness :
    cleanup_step 0
        { lock := some 0, tmp := false, cpc := .removeLock (some 0) } .me
      = some { lock := none, tmp := false, cpc := .finished } := by
  have h := (cleanup_checks_read_content 0
      { lock := some 0, tmp := false, cpc := .removeLock (some 0) }
      (some 0) rfl).1
  simpa using h

/-- C8: if the destination `module_dir` already exists when the task reaches
the rename of its temporary directory, the `AlreadyExistsError` is absorbed:
the publish step does not fail, and the call still finishes with outcome `ok`
(returning `module_dir`), the directory left in place. -/
theorem publish_race_is_success (ε : Type) (n : Nat) (s : Sys ε) (i : Nat)
    (hn : i < n) (hpc : (s.tasks i).pc = .publish) (hdir : s.module_dir = true) :
    ∃ s1 s2, step n s i .go = some s1 ∧ (s1.tasks i).pc = .cleanup .ok ∧
      s1.module_dir = true ∧ step n s1 i .go = some s2 ∧
      (s2.tasks i).pc = .done .ok ∧ s2.module_dir = true := by
  refine ⟨{ s with
        descriptor := true
        tasks := updTask s.tasks i { s.tasks i with pc := .cleanup .ok } },
    { s with
        descriptor := true
        lock := if s.lock = some i then none else s.lock
        tasks := updTask s.tasks i
          { s.tasks i with tmp := false, pc := .done .ok } },
    ?_, ?_, ?_, ?_, ?_, ?_⟩
  · simp [step, hn, hpc, hdir]
  · simp [updTask_self]
  · exact hdir
  · simp [step, hn, updTask_self, updTask_updTask]
  · simp [updTask_self]
  · exact hdir

/-- Witness for C8: a concrete task renaming onto an existing destination
still finishes with outcome `ok`. -/
theorem publish_race_is_success_witness :
    ∃ s1 s2, step 1 sys_publish 0 .go = some s1 ∧ (s1.tasks 0).pc = .cleanup .ok ∧
      s1.module_dir = true ∧ step 1 s1 0 .go = some s2 ∧
      (s2.tasks 0).pc = .done .ok ∧ s2.module_dir = true :=
  publish_race_is_success Unit 1 sys_publish 0 (by decide) rfl rfl

/-- C7: the final module directory, once present, is never deleted or written
into by the coordinator.  Concretely: the lock file, the temporary download
directory and the descriptor file (the only paths the coordinator writes or
deletes besides the rename target) are all distinct from `module_dir`; every
protocol step preserves the existence of `module_dir`; and the only
transition that brings `module_dir` into existence is the atomic-rename
(publish) step. -/
theorem module_dir_never_deleted :
    (∀ md uid, lock_filename md ≠ md ∧ temp_download_dir md uid ≠ md ∧
      module_descriptor_file md ≠ md) ∧
    (∀ (ε : Type) (n : Nat) (s s' : Sys ε) (i : Nat) (ev : Ev),
      step n s i ev = some s' → s.module_dir = true → s'.module_dir = true) ∧
    (∀ (ε : Type) (n : Nat) (s s' : Sys ε) (i : Nat) (ev : Ev),
      step n s i ev = some s' → s.module_dir = false → s'.module_dir = true →
        (s.tasks i).pc = .publish ∧ ev = .go) := by
  refine ⟨?_, ?_, ?_⟩
  · intro md uid
    exact ⟨lock_filename_ne md, temp_download_dir_ne md uid,
      module_descriptor_file_ne md⟩
  · intro ε n s s' i ev h hd
    cases step_sound h <;> simp_all
  · intro ε n s s' i ev h hd hd'
    cases step_sound h <;> simp_all

/-- Witness for C7: a concrete cleanup step (which deletes the temporary
directory and the lock) leaves the existing module directory in place. -/
theorem module_dir_never_deleted_witness :
    ((step 1 sys_cleanup 0 .go).get (by decide)).module_dir = true :=
  module_dir_never_deleted.2.1 Unit 1 sys_cleanup _ 0 .go
    (Option.some_get (by decide)).symm rfl

theorem inv_step {ε : Type} {n : Nat} {s s' : Sys ε} {i : Nat} {ev : Ev}
    (h : step n s i ev = some s') (hev : ev ≠ .steal) (hinv : Inv n s) :
    Inv n s' := by
  have hrel := step_sound h
  clear h
  obtain ⟨hf, hc, hdlpc, hed, hdd, hdldir, hpd, hdu, hok⟩ := hinv
  cases hrel with
  | stealLock hn hpc j hl hne => exact absurd rfl hev
  | lockAcquired hn hpc hl =>
    refine ⟨?_, ?_, ?_, ?_, ?_, ?_, ?_, ?_, ?_⟩
    · intro j
      by_cases hj : j = i <;> simp [updTask, hj, hf]
    · intro j hcrit
      by_cases hj : j = i
      · simp [hj]
      · simp only [updTask, hj, if_false] at hcrit ⊢
        have := hc j (by simpa using hcrit)
        rw [hl] at this
        exact Option.noConfusion this
    · intro j hdlj
      by_cases hj : j = i
      · subst hj
        simp only [updTask, if_pos rfl] at hdlj ⊢
        have := hdlpc j (by simpa using hdlj)
        rw [hpc] at this
        simp at this
      · simp only [updTask, hj, if_false] at hdlj ⊢
        exact hdlpc j (by simpa using hdlj)
    · intro j r hend
      by_cases hj : j = i
      · subst hj
        simp [updTask] at hend
      · simp only [updTask, hj, if_false] at hend ⊢
        exact hed j r (by simpa using hend)
    · intro hdir
      obtain ⟨k, hk⟩ := hdd (by simpa using hdir)
      refine ⟨k, ?_⟩
      by_cases hk2 : k = i <;> simp [updTask, hk2, hk]
      · subst hk2; simpa using hk
    · intro j hdlj
      by_cases hj : j = i
      · subst hj; simp [updTask] at hdlj
      · simp only [updTask, hj, if_false] at hdlj ⊢
        exact hdldir j (by simpa using hdlj)
    · intro j hpub
      by_cases hj : j = i
      · subst hj; simp [updTask] at hpub
      · simp only [updTask, hj, if_false] at hpub ⊢
        exact hpd j (by simpa using hpub)
    · intro j k hdlj hdlk
      have hj2 : (s.tasks j).downloaded = true := by
        by_cases hj : j = i
        · subst hj; simpa [updTask] using hdlj
        · simpa [updTask, hj] using hdlj
      have hk2 : (s.tasks k).downloaded = true := by
        by_cases hk : k = i
        · subst hk; simpa [updTask] using hdlk
        · simpa [updTask, hk] using hdlk
      exact hdu j k hj2 hk2
    · intro j r hend
      by_cases hj : j = i
      · subst hj; simp [updTask] at hend
      · simp only [updTask, hj, if_false] at hend ⊢
        exact hok j r (by simpa using hend)
  | lockBusy hn hpc j0 hl =>
    refine ⟨?_, ?_, ?_, ?_, ?_, ?_, ?_, ?_, ?_⟩
    · intro j
      by_cases hj : j = i <;> simp [updTask, hj, hf]
    · intro j hcrit
      by_cases hj : j = i
      · subst hj
        simp [updTask] at hcrit
      · simp only [updTask, hj, if_false] at hcrit ⊢
        exact hc j (by simpa using hcrit)
    · intro j hdlj
      by_cases hj : j = i
      · subst hj
        simp only [updTask, if_pos rfl] at hdlj
        have := hdlpc j (by simpa using hdlj)
        rw [hpc] at this
        simp at this
      · simp only [updTask, hj, if_false] at hdlj ⊢
        exact hdlpc j (by simpa using hdlj)
    · intro j r hend
      by_cases hj : j = i
      · subst hj
        simp [updTask] at hend
      · simp only [updTask, hj, if_false] at hend ⊢
        exact hed j r (by simpa using hend)
    · intro hdir
      obtain ⟨k, hk⟩ := hdd (by simpa using hdir)
      refine ⟨k, ?_⟩
      by_cases hk2 : k = i <;> simp [updTask, hk2, hk]
      · subst hk2
        simpa using hk
    · intro j hdlj
      by_cases hj : j = i
      · subst hj
        simp [updTask] at hdlj
      · simp only [updTask, hj, if_false] at hdlj ⊢
        exact hdldir j (by simpa using hdlj)
    · intro j hpub
      by_cases hj : j = i
      · subst hj
        simp [updTask] at hpub
      · simp only [updTask, hj, if_false] at hpub ⊢
        exact hpd j (by simpa using hpub)
    · intro j k hdlj hdlk
      have hj2 : (s.tasks j).downloaded = true := by
        by_cases hj : j = i
        · subst hj
          simpa [updTask] using hdlj
        · simpa [updTask, hj] using hdlj
      have hk2 : (s.tasks k).downloaded = true := by
        by_cases hk : k = i
        · subst hk
          simpa [updTask] using hdlk
        · simpa [updTask, hk] using hdlk
      exact hdu j k hj2 hk2
    · intro j r hend
      by_cases hj : j = i
      · subst hj
        simp [updTask] at hend
      · simp only [updTask, hj, if_false] at hend ⊢
        exact hok j r (by simpa using hend)
  | pollFree hn hpc hl =>
    refine ⟨?_, ?_, ?_, ?_, ?_, ?_, ?_, ?_, ?_⟩
    · intro j
      by_cases hj : j = i <;> simp [updTask, hj, hf]
    · intro j hcrit
      by_cases hj : j = i
      · subst hj
        simp [updTask] at hcrit
      · simp only [updTask, hj, if_false] at hcrit ⊢
        have := hc j (by simpa using hcrit)
        rw [hl] at this
        exact Option.noConfusion this
    · intro j hdlj
      by_cases hj : j = i
      · subst hj
        simp only [updTask, if_pos rfl] at hdlj
        have := hdlpc j (by simpa using hdlj)
        rw [hpc] at this
        simp at this
      · simp only [updTask, hj, if_false] at hdlj ⊢
        exact hdlpc j (by simpa using hdlj)
    · intro j r hend
      by_cases hj : j = i
      · subst hj
        simp [updTask] at hend
      · simp only [updTask, hj, if_false] at hend ⊢
        exact hed j r (by simpa using hend)
    · intro hdir
      obtain ⟨k, hk⟩ := hdd (by simpa using hdir)
      refine ⟨k, ?_⟩
      by_cases hk2 : k = i <;> simp [updTask, hk2, hk]
      · subst hk2
        simpa using hk
    · intro j hdlj
      by_cases hj : j = i
      · subst hj
        simp [updTask] at hdlj
      · simp only [updTask, hj, if_false] at hdlj ⊢
        exact hdldir j (by simpa using hdlj)
    · intro j hpub
      by_cases hj : j = i
      · subst hj
        simp [updTask] at hpub
      · simp only [updTask, hj, if_false] at hpub ⊢
        exact hpd j (by simpa using hpub)
    · intro j k hdlj hdlk
      have hj2 : (s.tasks j).downloaded = true := by
        by_cases hj : j = i
        · subst hj
          simpa [updTask] using hdlj
        · simpa [updTask, hj] using hdlj
      have hk2 : (s.tasks k).downloaded = true := by
        by_cases hk : k = i
        · subst hk
          simpa [updTask] using hdlk
        · simpa [updTask, hk] using hdlk
      exact hdu j k hj2 hk2
    · intro j r hend
      by_cases hj : j = i
      · subst hj
        simp [updTask] at hend
      · simp only [updTask, hj, if_false] at hend ⊢
        exact hok j r (by simpa using hend)
  | pollBusy hn hpc j0 hl =>
    exact ⟨hf, hc, hdlpc, hed, hdd, hdldir, hpd, hdu, hok⟩
  | checkExists hn hpc hdir =>
    refine ⟨?_, ?_, ?_, ?_, ?_, ?_, ?_, ?_, ?_⟩
    · intro j
      by_cases hj : j = i <;> simp [updTask, hj, hf]
    · intro j hcrit
      by_cases hj : j = i
      · subst hj
        simp [updTask] at hcrit
      · simp only [updTask, hj, if_false] at hcrit ⊢
        exact hc j (by simpa using hcrit)
    · intro j hdlj
      by_cases hj : j = i
      · subst hj
        simp [updTask]
      · simp only [updTask, hj, if_false] at hdlj ⊢
        exact hdlpc j (by simpa using hdlj)
    · intro j r hend
      simpa using hdir
    · intro hdir2
      obtain ⟨k, hk⟩ := hdd hdir
      refine ⟨k, ?_⟩
      by_cases hk2 : k = i <;> simp [updTask, hk2, hk]
      · subst hk2
        simpa using hk
    · intro j hdlj
      by_cases hj : j = i
      · subst hj
        simp [updTask] at hdlj
      · simp only [updTask, hj, if_false] at hdlj ⊢
        exact hdldir j (by simpa using hdlj)
    · intro j hpub
      by_cases hj : j = i
      · subst hj
        simp [updTask] at hpub
      · simp only [updTask, hj, if_false] at hpub ⊢
        exact hpd j (by simpa using hpub)
    · intro j k hdlj hdlk
      have hj2 : (s.tasks j).downloaded = true := by
        by_cases hj : j = i
        · subst hj
          simpa [updTask] using hdlj
        · simpa [updTask, hj] using hdlj
      have hk2 : (s.tasks k).downloaded = true := by
        by_cases hk : k = i
        · subst hk
          simpa [updTask] using hdlk
        · simpa [updTask, hk] using hdlk
      exact hdu j k hj2 hk2
    · intro j r hend
      by_cases hj : j = i
      · subst hj
        simp [updTask] at hend
        exact hend.symm
      · simp only [updTask, hj, if_false] at hend ⊢
        exact hok j r (by simpa using hend)
  | checkAbsent hn hpc hdir =>
    refine ⟨?_, ?_, ?_, ?_, ?_, ?_, ?_, ?_, ?_⟩
    · intro j
      by_cases hj : j = i <;> simp [updTask, hj, hf]
    · intro j hcrit
      by_cases hj : j = i
      · subst hj
        simpa using hc j (Or.inl hpc)
      · simp only [updTask, hj, if_false] at hcrit ⊢
        exact hc j (by simpa using hcrit)
    · intro j hdlj
      by_cases hj : j = i
      · subst hj
        simp only [updTask, if_pos rfl] at hdlj
        have := hdlpc j (by simpa using hdlj)
        rw [hpc] at this
        simp at this
      · simp only [updTask, hj, if_false] at hdlj ⊢
        exact hdlpc j (by simpa using hdlj)
    · intro j r hend
      by_cases hj : j = i
      · subst hj
        simp [updTask] at hend
      · simp only [updTask, hj, if_false] at hend ⊢
        exact hed j r (by simpa using hend)
    · intro hdir2
      have : s.module_dir = true := by simpa using hdir2
      rw [hdir] at this
      exact Bool.noConfusion this
    · intro j hdlj
      simpa using hdir
    · intro j hpub
      by_cases hj : j = i
      · subst hj
        simp [updTask] at hpub
      · simp only [updTask, hj, if_false] at hpub ⊢
        exact hpd j (by simpa using hpub)
    · intro j k hdlj hdlk
      have hj2 : (s.tasks j).downloaded = true := by
        by_cases hj : j = i
        · subst hj
          simpa [updTask] using hdlj
        · simpa [updTask, hj] using hdlj
      have hk2 : (s.tasks k).downloaded = true := by
        by_cases hk : k = i
        · subst hk
          simpa [updTask] using hdlk
        · simpa [updTask, hk] using hdlk
      exact hdu j k hj2 hk2
    · intro j r hend
      by_cases hj : j = i
      · subst hj
        simp [updTask] at hend
      · simp only [updTask, hj, if_false] at hend ⊢
        exact hok j r (by simpa using hend)
  | downloadFail hn hpc e hfail =>
    rw [hf i] at hfail
    exact Option.noConfusion hfail
  | downloadOk hn hpc hfo =>
    refine ⟨?_, ?_, ?_, ?_, ?_, ?_, ?_, ?_, ?_⟩
    · intro j
      by_cases hj : j = i <;> simp [updTask, hj, hf]
    · intro j hcrit
      by_cases hj : j = i
      · subst hj
        simpa using hc j (Or.inr (Or.inl hpc))
      · simp only [updTask, hj, if_false] at hcrit ⊢
        exact hc j (by simpa using hcrit)
    · intro j hdlj
      by_cases hj : j = i
      · subst hj
        simp [updTask]
      · simp only [updTask, hj, if_false] at hdlj ⊢
        exact hdlpc j (by simpa using hdlj)
    · intro j r hend
      by_cases hj : j = i
      · subst hj
        simp [updTask] at hend
      · simp only [updTask, hj, if_false] at hend ⊢
        exact hed j r (by simpa using hend)
    · intro hdir
      obtain ⟨k, hk⟩ := hdd (by simpa using hdir)
      refine ⟨k, ?_⟩
      by_cases hk2 : k = i <;> simp [updTask, hk2, hk]
    · intro j hdlj
      by_cases hj : j = i
      · subst hj
        simp [updTask] at hdlj
      · simp only [updTask, hj, if_false] at hdlj ⊢
        exact hdldir j (by simpa using hdlj)
    · intro j hpub
      by_cases hj : j = i
      · subst hj
        simp [updTask]
      · simp only [updTask, hj, if_false] at hpub ⊢
        exact hpd j (by simpa using hpub)
    · intro j k hdlj hdlk
      have key : ∀ m, m ≠ i → (s.tasks m).downloaded = true → False := by
        intro m hm hdlm
        rcases hdlpc m hdlm with hp | hcl | hdn
        · have h1 := hc m (Or.inr (Or.inr hp))
          have h2 := hc i (Or.inr (Or.inl hpc))
          rw [h1] at h2
          exact hm (by simpa using h2)
        · have h1 := hed m .ok (Or.inl hcl)
          have h2 := hdldir i hpc
          rw [h1] at h2
          exact Bool.noConfusion h2
        · have h1 := hed m .ok (Or.inr hdn)
          have h2 := hdldir i hpc
          rw [h1] at h2
          exact Bool.noConfusion h2
      by_cases hj : j = i
      · by_cases hk : k = i
        · rw [hj, hk]
        · exact absurd (by simpa [updTask, hk] using hdlk) (fun hx => key k hk hx)
      · exact absurd (by simpa [updTask, hj] using hdlj) (fun hx => key j hj hx)
    · intro j r hend
      by_cases hj : j = i
      · subst hj
        simp [updTask] at hend
      · simp only [updTask, hj, if_false] at hend ⊢
        exact hok j r (by simpa using hend)
  | publishExists hn hpc hdir =>
    refine ⟨?_, ?_, ?_, ?_, ?_, ?_, ?_, ?_, ?_⟩
    · intro j
      by_cases hj : j = i <;> simp [updTask, hj, hf]
    · intro j hcrit
      by_cases hj : j = i
      · subst hj
        simp [updTask] at hcrit
      · simp only [updTask, hj, if_false] at hcrit ⊢
        exact hc j (by simpa using hcrit)
    · intro j hdlj
      by_cases hj : j = i
      · subst hj
        simp [updTask]
      · simp only [updTask, hj, if_false] at hdlj ⊢
        exact hdlpc j (by simpa using hdlj)
    · intro j r hend
      simpa using hdir
    · intro hdir2
      obtain ⟨k, hk⟩ := hdd hdir
      refine ⟨k, ?_⟩
      by_cases hk2 : k = i <;> simp [updTask, hk2, hk]
      · subst hk2
        simpa using hk
    · intro j hdlj
      by_cases hj : j = i
      · subst hj
        simp [updTask] at hdlj
      · simp only [updTask, hj, if_false] at hdlj ⊢
        exact hdldir j (by simpa using hdlj)
    · intro j hpub
      by_cases hj : j = i
      · subst hj
        simp [updTask] at hpub
      · simp only [updTask, hj, if_false] at hpub ⊢
        exact hpd j (by simpa using hpub)
    · intro j k hdlj hdlk
      have hj2 : (s.tasks j).downloaded = true := by
        by_cases hj : j = i
        · subst hj
          simpa [updTask] using hdlj
        · simpa [updTask, hj] using hdlj
      have hk2 : (s.tasks k).downloaded = true := by
        by_cases hk : k = i
        · subst hk
          simpa [updTask] using hdlk
        · simpa [updTask, hk] using hdlk
      exact hdu j k hj2 hk2
    · intro j r hend
      by_cases hj : j = i
      · subst hj
        simp [updTask] at hend
        exact hend.symm
      · simp only [updTask, hj, if_false] at hend ⊢
        exact hok j r (by simpa using hend)
  | publishFresh hn hpc hdir =>
    refine ⟨?_, ?_, ?_, ?_, ?_, ?_, ?_, ?_, ?_⟩
    · intro j
      by_cases hj : j = i <;> simp [updTask, hj, hf]
    · intro j hcrit
      by_cases hj : j = i
      · subst hj
        simp [updTask] at hcrit
      · simp only [updTask, hj, if_false] at hcrit ⊢
        exact hc j (by simpa using hcrit)
    · intro j hdlj
      by_cases hj : j = i
      · subst hj
        simp [updTask]
      · simp only [updTask, hj, if_false] at hdlj ⊢
        exact hdlpc j (by simpa using hdlj)
    · intro j r hend
      simp
    · intro hdir2
      refine ⟨i, ?_⟩
      simpa [updTask] using hpd i hpc
    · intro j hdlj
      by_cases hj : j = i
      · subst hj
        simp [updTask] at hdlj
      · simp only [updTask, hj, if_false] at hdlj
        have h1 := hc j (Or.inr (Or.inl (by simpa using hdlj)))
        have h2 := hc i (Or.inr (Or.inr hpc))
        rw [h1] at h2
        exact absurd (by simpa using h2) hj
    · intro j hpub
      by_cases hj : j = i
      · subst hj
        simp [updTask] at hpub
      · simp only [updTask, hj, if_false] at hpub ⊢
        exact hpd j (by simpa using hpub)
    · intro j k hdlj hdlk
      have hj2 : (s.tasks j).downloaded = true := by
        by_cases hj : j = i
        · subst hj
          simpa [updTask] using hdlj
        · simpa [updTask, hj] using hdlj
      have hk2 : (s.tasks k).downloaded = true := by
        by_cases hk : k = i
        · subst hk
          simpa [updTask] using hdlk
        · simpa [updTask, hk] using hdlk
      exact hdu j k hj2 hk2
    · intro j r hend
      by_cases hj : j = i
      · subst hj
        simp [updTask] at hend
        exact hend.symm
      · simp only [updTask, hj, if_false] at hend ⊢
        exact hok j r (by simpa using hend)
  | finishCleanup hn r0 hpc =>
    have hr0 : r0 = .ok := hok i r0 (Or.inl hpc)
    refine ⟨?_, ?_, ?_, ?_, ?_, ?_, ?_, ?_, ?_⟩
    · intro j
      by_cases hj : j = i <;> simp [updTask, hj, hf]
    · intro j hcrit
      by_cases hj : j = i
      · subst hj
        simp [updTask] at hcrit
      · simp only [updTask, hj, if_false] at hcrit
        have h1 := hc j (by simpa using hcrit)
        have h2 : ¬ (s.lock = some i) := by
          rw [h1]
          simp [hj]
        simp only [h2, if_false]
        exact h1
    · intro j hdlj
      by_cases hj : j = i
      · subst hj
        simp [updTask, hr0]
      · simp only [updTask, hj, if_false] at hdlj ⊢
        exact hdlpc j (by simpa using hdlj)
    · intro j r hend
      simpa using hed i r0 (Or.inl hpc)
    · intro hdir
      obtain ⟨k, hk⟩ := hdd (by simpa using hdir)
      refine ⟨k, ?_⟩
      by_cases hk2 : k = i <;> simp [updTask, hk2, hk]
      · subst hk2
        simpa using hk
    · intro j hdlj
      by_cases hj : j = i
      · subst hj
        simp [updTask] at hdlj
      · simp only [updTask, hj, if_false] at hdlj ⊢
        exact hdldir j (by simpa using hdlj)
    · intro j hpub
      by_cases hj : j = i
      · subst hj
        simp [updTask] at hpub
      · simp only [updTask, hj, if_false] at hpub ⊢
        exact hpd j (by simpa using hpub)
    · intro j k hdlj hdlk
      have hj2 : (s.tasks j).downloaded = true := by
        by_cases hj : j = i
        · subst hj
          simpa [updTask] using hdlj
        · simpa [updTask, hj] using hdlj
      have hk2 : (s.tasks k).downloaded = true := by
        by_cases hk : k = i
        · subst hk
          simpa [updTask] using hdlk
        · simpa [updTask, hk] using hdlk
      exact hdu j k hj2 hk2
    · intro j r hend
      by_cases hj : j = i
      · subst hj
        simp [updTask, hr0] at hend
        exact hend.symm
      · simp only [updTask, hj, if_false] at hend ⊢
        exact hok j r (by simpa using hend)

theorem inv_init (ε : Type) (n : Nat) :
    Inv n (init_sys (ε := ε) (fun _ => none)) := by
  refine ⟨?_, ?_, ?_, ?_, ?_, ?_, ?_, ?_, ?_⟩ <;> simp [init_sys]

theorem inv_run {ε : Type} {n : Nat} {s s' : Sys ε} {tr : List (Nat × Ev)}
    (h : run n s tr = some s') (hns : ∀ e ∈ tr, e.2 ≠ Ev.steal)
    (hinv : Inv n s) : Inv n s' := by
  induction tr generalizing s with
  | nil =>
    simp only [run] at h
    cases h
    exact hinv
  | cons e tr ih =>
    simp only [run] at h
    cases hstep : step n s e.1 e.2 with
    | none =>
      rw [hstep] at h
      exact Option.noConfusion h
    | some s1 =>
      rw [hstep] at h
      exact ih h (fun x hx => hns x (List.mem_cons_of_mem _ hx))
        (inv_step hstep (hns e (List.mem_cons_self _ _)) hinv)

/-- C1 amended: for any number of concurrent callers of `atomic_download` on
an initially absent `module_dir`, each with a `download_fn` that does not
raise, and for every interleaving in which no lock is stolen via the
staleness timeout, once all callers have returned there is exactly one task
whose `download_fn` was invoked, and every caller returned successfully with
the shared `module_dir` path (outcome `ok`). -/
theorem at_most_one_download (ε : Type) (n : Nat) (hn : 0 < n)
    (tr : List (Nat × Ev)) (s : Sys ε)
    (hns : ∀ e ∈ tr, e.2 ≠ Ev.steal)
    (hrun : run n (init_sys (fun _ => none)) tr = some s)
    (hdone : ∀ i, i < n → ∃ r, (s.tasks i).pc = .done r) :
    (∃! i, (s.tasks i).downloaded = true) ∧
      ∀ i, i < n → (s.tasks i).pc = .done .ok := by
  have hinv := inv_run hrun hns (inv_init ε n)
  have hall : ∀ i, i < n → (s.tasks i).pc = .done .ok := by
    intro i hi
    obtain ⟨r, hr⟩ := hdone i hi
    have hro := hinv.end_ok i r (Or.inr hr)
    rw [hro] at hr
    exact hr
  refine ⟨?_, hall⟩
  have hdir : s.module_dir = true := hinv.end_dir 0 .ok (Or.inr (hall 0 hn))
  obtain ⟨k, hk⟩ := hinv.dir_dl hdir
  exact ⟨k, hk, fun j hj => hinv.dl_unique j k hj hk⟩

theorem at_most_one_download_witness :
    (∀ e ∈ fair_schedule, e.2 ≠ Ev.steal) ∧
      (∃! i, (((run 2 init_two fair_schedule).get (by decide)).tasks i).downloaded
        = true) :=
  ⟨by decide,
    (at_most_one_download Unit 2 (by decide) fair_schedule
      ((run 2 init_two fair_schedule).get (by decide))
      (by decide)
      (Option.some_get (by decide)).symm
      (by
        intro i hi
        interval_cases i
        · exact ⟨.ok, by decide⟩
        · exact ⟨.ok, by decide⟩)).1⟩

end DownloadCache
